import Mathlib

/-!
Verification of the schema-translation and incremental-sync core of the
Notion-to-Postgres sync worker.  The definitions below are a shallow
embedding of the TypeScript sources:

* `src/first_worker/src/db/schema-sync.ts` (sanitizer, type map, schema
  fetch, schema reconciliation),
* `src/first_worker/src/notion/page-reader.ts` (property value extraction),
* `src/first_worker/src/notion/markdown-converter.ts` (content flattening),
* the sync orchestrator `runSync` and its shared types
  (`src/unnamed/part_004`, `src/unnamed/part_005`).

Awaited external capabilities (the Notion client, the SQL client and the
markdown conversion library) are modelled as explicit function parameters;
machine side effects (DDL execution, log.warn) are modelled as explicit
state and output fields.
-/

namespace AjaxWorker

/-! ## Name sanitizer (schema-sync.ts, lines 49-55) -/

/-- ASCII lowercasing of one character, the effect of `name.toLowerCase()`
in `sanitizeColumnName` (schema-sync.ts line 51).  The source uses the
JavaScript Unicode lowercase; only the ASCII range is observable
downstream, because every character outside `[a-z0-9_]` is replaced by an
underscore immediately afterwards. -/
def toLowerChar (c : Char) : Char :=
  if 65 ≤ c.toNat ∧ c.toNat ≤ 90 then Char.ofNat (c.toNat + 32) else c

/-- Membership in the character class `[a-z0-9_]` of the regex
`/[^a-z0-9_]/g` (schema-sync.ts line 52). -/
def isSafeChar (c : Char) : Bool :=
  decide ((97 ≤ c.toNat ∧ c.toNat ≤ 122) ∨ (48 ≤ c.toNat ∧ c.toNat ≤ 57) ∨ c.toNat = 95)

/-- One character of `.replace(/[^a-z0-9_]/g, "_")` (schema-sync.ts line 52). -/
def replaceUnsafe (c : Char) : Char :=
  if isSafeChar c then c else '_'

/-- `.replace(/^_+|_+$/g, "")` (schema-sync.ts line 53): remove the leading
run and the trailing run of underscores. -/
def stripUnderscores (l : List Char) : List Char :=
  ((l.dropWhile fun c => c == '_').reverse.dropWhile fun c => c == '_').reverse

/-- `.replace(/_+/g, "_")` (schema-sync.ts line 54): collapse every maximal
run of underscores to a single underscore. -/
def collapseUnderscores : List Char → List Char
  | [] => []
  | [c] => [c]
  | c :: d :: rest =>
    if c == '_' && d == '_' then collapseUnderscores (d :: rest)
    else c :: collapseUnderscores (d :: rest)

/-- `sanitizeColumnName` (schema-sync.ts lines 49-55): lowercase, replace
characters outside `[a-z0-9_]` by underscores, strip leading/trailing
underscores, collapse repeated underscores — in exactly that order. -/
def sanitizeColumnName (name : String) : String :=
  String.mk (collapseUnderscores (stripUnderscores
    (name.data.map fun c => replaceUnsafe (toLowerChar c))))

/-- The identifier shape claimed for sanitizer output: only characters from
`[a-z0-9_]`, no leading underscore, no trailing underscore, and no two
adjacent underscores. -/
def isIdentShape (l : List Char) : Prop :=
  (∀ c ∈ l, isSafeChar c = true) ∧ l.head? ≠ some '_' ∧ l.getLast? ≠ some '_' ∧
    l.Chain' fun a b => ¬(a = '_' ∧ b = '_')

theorem isSafeChar_replaceUnsafe (c : Char) : isSafeChar (replaceUnsafe c) = true := by
  unfold replaceUnsafe
  by_cases h : isSafeChar c = true
  · rwa [if_pos h]
  · rw [if_neg h]; decide

theorem toLowerChar_of_safe {c : Char} (h : isSafeChar c = true) : toLowerChar c = c := by
  unfold isSafeChar at h
  rw [decide_eq_true_iff] at h
  unfold toLowerChar
  rw [if_neg]
  omega

theorem replaceUnsafe_of_safe {c : Char} (h : isSafeChar c = true) : replaceUnsafe c = c := by
  unfold replaceUnsafe
  rw [if_pos h]

theorem underscore_toNat : ('_').toNat = 95 := by decide

/-- The first element surviving `dropWhile p` does not satisfy `p`. -/
theorem dropWhile_head?_false {p : Char → Bool} :
    ∀ (l : List Char) (a : Char), (l.dropWhile p).head? = some a → p a = false := by
  intro l
  induction l with
  | nil => intro a h; simp [List.dropWhile] at h
  | cons c rest ih =>
    intro a h
    rw [List.dropWhile_cons] at h
    by_cases hc : p c = true
    · rw [if_pos hc] at h
      exact ih a h
    · rw [if_neg hc] at h
      simp only [List.head?_cons, Option.some.injEq] at h
      rw [← h]
      simpa using hc

/-- `dropWhile` removes a prefix, so a nonempty result keeps the last
element of the input. -/
theorem dropWhile_getLast? {p : Char → Bool} :
    ∀ l : List Char, l.dropWhile p ≠ [] → (l.dropWhile p).getLast? = l.getLast? := by
  intro l
  induction l with
  | nil => intro h; simp [List.dropWhile] at h
  | cons c rest ih =>
    intro h
    rw [List.dropWhile_cons] at h ⊢
    by_cases hc : p c = true
    · rw [if_pos hc] at h ⊢
      rw [ih h]
      have hrest : rest ≠ [] := by
        intro hr
        rw [hr] at h
        simp [List.dropWhile] at h
      cases rest with
      | nil => exact absurd rfl hrest
      | cons d ds => rw [List.getLast?_cons_cons]
    · rw [if_neg hc]

theorem dropWhile_eq_self {p : Char → Bool} (l : List Char)
    (h : ∀ a, l.head? = some a → p a = false) : l.dropWhile p = l := by
  cases l with
  | nil => rfl
  | cons c rest =>
    rw [List.dropWhile_cons, if_neg]
    rw [h c rfl]
    simp

theorem stripUnderscores_mem {c : Char} {l : List Char}
    (h : c ∈ stripUnderscores l) : c ∈ l := by
  unfold stripUnderscores at h
  rw [List.mem_reverse] at h
  have h2 := (List.dropWhile_sublist (l := (l.dropWhile fun c => c == '_').reverse)
    (p := fun c => c == '_')).subset h
  rw [List.mem_reverse] at h2
  exact (List.dropWhile_sublist (l := l) (p := fun c => c == '_')).subset h2

theorem stripUnderscores_head? {l : List Char} {a : Char}
    (h : (stripUnderscores l).head? = some a) : a ≠ '_' := by
  unfold stripUnderscores at h
  rw [List.head?_reverse] at h
  have hne : (l.dropWhile fun c => c == '_').reverse.dropWhile (fun c => c == '_') ≠ [] := by
    intro hnil
    rw [hnil] at h
    simp at h
  rw [dropWhile_getLast? _ hne, List.getLast?_reverse] at h
  have := dropWhile_head?_false l a h
  intro ha
  rw [ha] at this
  simp at this

theorem stripUnderscores_getLast? {l : List Char} {a : Char}
    (h : (stripUnderscores l).getLast? = some a) : a ≠ '_' := by
  unfold stripUnderscores at h
  rw [List.getLast?_reverse] at h
  have := dropWhile_head?_false _ a h
  intro ha
  rw [ha] at this
  simp at this

theorem stripUnderscores_eq_self {l : List Char}
    (h1 : l.head? ≠ some '_') (h2 : l.getLast? ≠ some '_') :
    stripUnderscores l = l := by
  unfold stripUnderscores
  have e1 : l.dropWhile (fun c => c == '_') = l := by
    apply dropWhile_eq_self
    intro a ha
    have : a ≠ '_' := by
      intro h
      rw [h] at ha
      exact h1 ha
    simpa using this
  rw [e1]
  have e2 : l.reverse.dropWhile (fun c => c == '_') = l.reverse := by
    apply dropWhile_eq_self
    intro a ha
    rw [List.head?_reverse] at ha
    have : a ≠ '_' := by
      intro h
      rw [h] at ha
      exact h2 ha
    simpa using this
  rw [e2, List.reverse_reverse]

theorem collapseUnderscores_head? :
    ∀ l : List Char, (collapseUnderscores l).head? = l.head?
  | [] => rfl
  | [_] => rfl
  | c :: d :: rest => by
    rw [collapseUnderscores]
    by_cases h : (c == '_' && d == '_') = true
    · rw [if_pos h]
      rw [collapseUnderscores_head? (d :: rest)]
      rw [Bool.and_eq_true, beq_iff_eq, beq_iff_eq] at h
      rw [h.1, h.2]
      simp
    · rw [if_neg h]
      rfl

theorem collapseUnderscores_ne_nil {l : List Char} (h : l ≠ []) :
    collapseUnderscores l ≠ [] := by
  intro hc
  have := collapseUnderscores_head? l
  rw [hc] at this
  cases l with
  | nil => exact h rfl
  | cons a as => simp at this

theorem collapseUnderscores_getLast? :
    ∀ l : List Char, (collapseUnderscores l).getLast? = l.getLast?
  | [] => rfl
  | [_] => rfl
  | c :: d :: rest => by
    rw [collapseUnderscores]
    have ih := collapseUnderscores_getLast? (d :: rest)
    by_cases h : (c == '_' && d == '_') = true
    · rw [if_pos h, ih, List.getLast?_cons_cons]
    · rw [if_neg h]
      have hne : collapseUnderscores (d :: rest) ≠ [] :=
        collapseUnderscores_ne_nil (by simp)
      cases hcc : collapseUnderscores (d :: rest) with
      | nil => exact absurd hcc hne
      | cons e es =>
        rw [List.getLast?_cons_cons, ← hcc, ih, List.getLast?_cons_cons]

theorem collapseUnderscores_mem :
    ∀ (l : List Char) (c : Char), c ∈ collapseUnderscores l → c ∈ l
  | [] => by
    intro c h
    rw [collapseUnderscores] at h
    exact absurd h (List.not_mem_nil c)
  | [a] => by
    intro c h
    rw [collapseUnderscores] at h
    exact h
  | a :: d :: rest => by
    intro c h
    rw [collapseUnderscores] at h
    by_cases hb : (a == '_' && d == '_') = true
    · rw [if_pos hb] at h
      exact List.mem_cons_of_mem a (collapseUnderscores_mem (d :: rest) c h)
    · rw [if_neg hb] at h
      rcases List.mem_cons.mp h with h1 | h2
      · rw [h1]; exact List.mem_cons_self a (d :: rest)
      · exact List.mem_cons_of_mem a (collapseUnderscores_mem (d :: rest) c h2)

theorem collapseUnderscores_chain' :
    ∀ l : List Char, (collapseUnderscores l).Chain' fun a b => ¬(a = '_' ∧ b = '_')
  | [] => List.chain'_nil
  | [_] => List.chain'_singleton _
  | c :: d :: rest => by
    rw [collapseUnderscores]
    have ih := collapseUnderscores_chain' (d :: rest)
    by_cases h : (c == '_' && d == '_') = true
    · rw [if_pos h]
      exact ih
    · rw [if_neg h]
      rw [List.chain'_cons']
      refine ⟨?_, ih⟩
      intro y hy
      rw [collapseUnderscores_head? (d :: rest)] at hy
      simp only [List.head?_cons, Option.mem_def, Option.some.injEq] at hy
      intro hcd
      apply h
      rw [Bool.and_eq_true, beq_iff_eq, beq_iff_eq]
      exact ⟨hcd.1, hy ▸ hcd.2⟩

theorem collapseUnderscores_eq_self :
    ∀ l : List Char, l.Chain' (fun a b => ¬(a = '_' ∧ b = '_')) →
      collapseUnderscores l = l
  | [] => fun _ => rfl
  | [_] => fun _ => rfl
  | c :: d :: rest => by
    intro h
    rw [List.chain'_cons] at h
    rw [collapseUnderscores, if_neg, collapseUnderscores_eq_self (d :: rest) h.2]
    intro hb
    rw [Bool.and_eq_true, beq_iff_eq, beq_iff_eq] at hb
    exact h.1 hb

theorem list_map_eq_self {f : Char → Char} :
    ∀ l : List Char, (∀ c ∈ l, f c = c) → l.map f = l
  | [] => fun _ => rfl
  | c :: rest => fun h => by
    rw [List.map_cons, h c (List.mem_cons_self c rest),
      list_map_eq_self rest fun a ha => h a (List.mem_cons_of_mem c ha)]

/-- The list of characters produced by `sanitizeColumnName`. -/
theorem sanitizeColumnName_data (name : String) :
    (sanitizeColumnName name).data = collapseUnderscores (stripUnderscores
      (name.data.map fun c => replaceUnsafe (toLowerChar c))) := rfl

theorem sanitizeColumnName_shape (x : String) :
    isIdentShape (sanitizeColumnName x).data := by
  rw [sanitizeColumnName_data]
  set M := x.data.map fun c => replaceUnsafe (toLowerChar c) with hM
  refine ⟨?_, ?_, ?_, collapseUnderscores_chain' _⟩
  · intro c hc
    have h1 := collapseUnderscores_mem _ c hc
    have h2 := stripUnderscores_mem h1
    rw [hM] at h2
    rcases List.mem_map.mp h2 with ⟨a, _, ha⟩
    rw [← ha]
    exact isSafeChar_replaceUnsafe _
  · rw [collapseUnderscores_head?]
    intro h
    exact stripUnderscores_head? h rfl
  · rw [collapseUnderscores_getLast?]
    intro h
    exact stripUnderscores_getLast? h rfl

/-- C7: `sanitizeColumnName` is idempotent, and its output is empty or has
the identifier shape (lowercase alphanumerics and underscores, no
leading/trailing underscore, no repeated underscores). -/
theorem sanitizeColumnName_idempotent_shape (x : String) :
    sanitizeColumnName (sanitizeColumnName x) = sanitizeColumnName x ∧
      (sanitizeColumnName x = "" ∨ isIdentShape (sanitizeColumnName x).data) := by
  have hshape := sanitizeColumnName_shape x
  constructor
  · obtain ⟨hsafe, hhead, hlast, hchain⟩ := hshape
    set L := (sanitizeColumnName x).data with hL
    have hmap : (L.map fun c => replaceUnsafe (toLowerChar c)) = L := by
      apply list_map_eq_self
      intro c hc
      rw [toLowerChar_of_safe (hsafe c hc), replaceUnsafe_of_safe (hsafe c hc)]
    have hstrip : stripUnderscores L = L := stripUnderscores_eq_self hhead hlast
    have hcoll : collapseUnderscores L = L := collapseUnderscores_eq_self L hchain
    show String.mk (collapseUnderscores (stripUnderscores
      ((sanitizeColumnName x).data.map fun c => replaceUnsafe (toLowerChar c)))) =
      sanitizeColumnName x
    rw [← hL, hmap, hstrip, hcoll]
  · right
    exact hshape

/-! ## Schema fetch and reconciliation (schema-sync.ts) -/

/-- TYPE_MAP (schema-sync.ts lines 18-40): Notion property type to Postgres
column type; `none` for property types outside the supported set. -/
def TYPE_MAP : String → Option String
  | "title" => some "TEXT"
  | "rich_text" => some "TEXT"
  | "number" => some "NUMERIC"
  | "select" => some "TEXT"
  | "multi_select" => some "TEXT[]"
  | "date" => some "TIMESTAMPTZ"
  | "checkbox" => some "BOOLEAN"
  | "url" => some "TEXT"
  | "email" => some "TEXT"
  | "phone_number" => some "TEXT"
  | "formula" => some "TEXT"
  | "relation" => some "TEXT[]"
  | "rollup" => some "TEXT"
  | "created_time" => some "TIMESTAMPTZ"
  | "created_by" => some "TEXT"
  | "last_edited_time" => some "TIMESTAMPTZ"
  | "last_edited_by" => some "TEXT"
  | "files" => some "TEXT[]"
  | "people" => some "TEXT[]"
  | "status" => some "TEXT"
  | "unique_id" => some "TEXT"
  | _ => none

/-- PropertyMapping (types.ts lines 30-34). -/
structure PropertyMapping where
  notionType : String
  postgresType : String
  columnName : String
deriving DecidableEq

/-- SchemaMapping (types.ts lines 37-39): a JavaScript object keyed by
property name, modelled as its `Object.entries` list in insertion order. -/
abbrev SchemaMapping := List (String × PropertyMapping)

/-- fetchNotionSchema (schema-sync.ts lines 68-101), applied to the
properties object of the retrieved database, given as the ordered list of
(property name, declared type) pairs.  Unsupported types are skipped with
a warning; a supported type produces an entry keyed by the property name
with the sanitized column name. -/
def fetchNotionSchema (props : List (String × String)) : SchemaMapping :=
  props.filterMap fun e =>
    match TYPE_MAP e.2 with
    | some pg => some (e.1, ⟨e.2, pg, sanitizeColumnName e.1⟩)
    | none => none

/-- getTableName (schema-sync.ts lines 60-63). -/
def getTableName (databaseId : String) : String :=
  "notion_" ++ String.mk ((databaseId.data.map fun c => if c == '-' then '_' else c).take 20)

/-- SchemaSyncResult (types.ts lines 70-73). -/
structure SchemaSyncResult where
  created : Bool
  columnsAdded : List String
deriving DecidableEq

/-- The observable outcome of one syncSchema call: its returned result,
the column list of the target table after the issued DDL statements, and
the warnings logged via log.warn. -/
structure SyncSchemaOut where
  result : SchemaSyncResult
  tableCols : List String
  warnings : List String
deriving DecidableEq

/-- The add-missing-property-columns loop of syncSchema (schema-sync.ts
lines 135-142).  The membership test runs against the column set
introspected before the loop (`existingNames`), while each issued
ALTER TABLE statement appends a column to the actual table. -/
def addMissingColumns (existingNames : List String) :
    List String → List String → List String → List String × List String
  | [], table, added => (table, added)
  | c :: rest, table, added =>
    if existingNames.contains c then addMissingColumns existingNames rest table added
    else addMissingColumns existingNames rest (table ++ [c]) (added ++ [c])

/-- The warning logged at schema-sync.ts lines 155-157. -/
def pkWarning : String :=
  "Table exists but missing notion_page_id column - manual intervention required"

/-- syncSchema (schema-sync.ts lines 106-169) over the modelled table
state: `none` when the table does not exist, `some cols` for its
introspected column list.  The reserved-columns loop over the
three-element literal list (lines 145-165) is unrolled; the check that
skips `notion_page_id` (lines 154-159) becomes the warning branch. -/
def syncSchema (table : Option (List String)) (schema : SchemaMapping) : SyncSchemaOut :=
  match table with
  | none =>
    { result := { created := true, columnsAdded := [] },
      tableCols := ["notion_page_id", "page_content", "synced_at"]
        ++ schema.map fun e => e.2.columnName,
      warnings := [] }
  | some existingNames =>
    let step1 := addMissingColumns existingNames (schema.map fun e => e.2.columnName)
      existingNames []
    let warnings := if existingNames.contains "notion_page_id" then [] else [pkWarning]
    let step2 := if existingNames.contains "page_content" then step1
      else (step1.1 ++ ["page_content"], step1.2 ++ ["page_content"])
    let step3 := if existingNames.contains "synced_at" then step2
      else (step2.1 ++ ["synced_at"], step2.2 ++ ["synced_at"])
    { result := { created := false, columnsAdded := step3.2 },
      tableCols := step3.1,
      warnings := warnings }

theorem contains_iff_mem (l : List String) (a : String) : l.contains a = true ↔ a ∈ l := by
  induction l with
  | nil => simp [List.contains]
  | cons c rest ih =>
    simp only [List.contains_cons, Bool.or_eq_true, beq_iff_eq, List.mem_cons, ih]

theorem mem_fetchNotionSchema {props : List (String × String)} {n t pg : String}
    (hmem : (n, t) ∈ props) (hty : TYPE_MAP t = some pg) :
    (n, (⟨t, pg, sanitizeColumnName n⟩ : PropertyMapping)) ∈ fetchNotionSchema props := by
  unfold fetchNotionSchema
  rw [List.mem_filterMap]
  refine ⟨(n, t), hmem, ?_⟩
  show (match TYPE_MAP t with
    | some pg => some (n, (⟨t, pg, sanitizeColumnName n⟩ : PropertyMapping))
    | none => none) = _
  rw [hty]

/-- C3 fails on the code: two distinct property names that sanitize to the
same column name produce two coexisting mapping entries whose
sanitizedColumnName values are equal; the mapping is not unique and no
collision is detected. -/
theorem fetchNotionSchema_collision_counterexample :
    (fetchNotionSchema [("Due Date", "date"), ("Due-Date", "date")]).map
        (fun e => e.2.columnName) = ["due_date", "due_date"] ∧
      ¬ ((fetchNotionSchema [("Due Date", "date"), ("Due-Date", "date")]).map
        (fun e => e.2.columnName)).Nodup := by
  constructor
  · rfl
  · decide

/-- C3 amended: fetchNotionSchema does not detect sanitization collisions;
two distinct supported properties whose names sanitize to the same column
name both coexist in the produced mapping, carrying the same
sanitizedColumnName. -/
theorem fetchNotionSchema_collision_coexists
    (props : List (String × String)) (n1 n2 t1 t2 pg1 pg2 : String)
    (h1 : (n1, t1) ∈ props) (h2 : (n2, t2) ∈ props)
    (hty1 : TYPE_MAP t1 = some pg1) (hty2 : TYPE_MAP t2 = some pg2)
    (hcoll : sanitizeColumnName n1 = sanitizeColumnName n2) :
    (n1, (⟨t1, pg1, sanitizeColumnName n1⟩ : PropertyMapping)) ∈ fetchNotionSchema props ∧
      (n2, (⟨t2, pg2, sanitizeColumnName n1⟩ : PropertyMapping)) ∈ fetchNotionSchema props := by
  refine ⟨mem_fetchNotionSchema h1 hty1, ?_⟩
  rw [hcoll]
  exact mem_fetchNotionSchema h2 hty2

theorem fetchNotionSchema_collision_coexists_witness :
    ("Due Date", (⟨"date", "TIMESTAMPTZ", sanitizeColumnName "Due Date"⟩ : PropertyMapping)) ∈
        fetchNotionSchema [("Due Date", "date"), ("Due-Date", "date")] ∧
      ("Due-Date", (⟨"date", "TIMESTAMPTZ", sanitizeColumnName "Due Date"⟩ : PropertyMapping)) ∈
        fetchNotionSchema [("Due Date", "date"), ("Due-Date", "date")] :=
  fetchNotionSchema_collision_coexists [("Due Date", "date"), ("Due-Date", "date")]
    "Due Date" "Due-Date" "date" "date" "TIMESTAMPTZ" "TIMESTAMPTZ"
    (by decide) (by decide) rfl rfl (by decide)

theorem addMissingColumns_table_mono (existingNames : List String) :
    ∀ (cols table added : List String) (c : String), c ∈ table →
      c ∈ (addMissingColumns existingNames cols table added).1
  | [], _, _, _ => fun h => h
  | x :: rest, table, added, c => fun h => by
    rw [addMissingColumns]
    by_cases hx : existingNames.contains x = true
    · rw [if_pos hx]
      exact addMissingColumns_table_mono existingNames rest table added c h
    · rw [if_neg hx]
      exact addMissingColumns_table_mono existingNames rest (table ++ [x]) (added ++ [x]) c
        (List.mem_append_left _ h)

theorem addMissingColumns_covers (existingNames : List String) :
    ∀ (cols table added : List String), (∀ c ∈ existingNames, c ∈ table) →
      ∀ c ∈ cols, c ∈ (addMissingColumns existingNames cols table added).1
  | [], _, _ => fun _ c hc => absurd hc (List.not_mem_nil c)
  | x :: rest, table, added => fun hsub c hc => by
    rw [addMissingColumns]
    by_cases hx : existingNames.contains x = true
    · rw [if_pos hx]
      rcases List.mem_cons.mp hc with rfl | hrest
      · exact addMissingColumns_table_mono existingNames rest table added c
          (hsub c ((contains_iff_mem existingNames c).mp hx))
      · exact addMissingColumns_covers existingNames rest table added hsub c hrest
    · rw [if_neg hx]
      have hsub' : ∀ a ∈ existingNames, a ∈ table ++ [x] := fun a ha =>
        List.mem_append_left _ (hsub a ha)
      rcases List.mem_cons.mp hc with rfl | hrest
      · exact addMissingColumns_table_mono existingNames rest (table ++ [c]) (added ++ [c]) c
          (List.mem_append_right _ (List.mem_singleton_self c))
      · exact addMissingColumns_covers existingNames rest (table ++ [x]) (added ++ [x]) hsub' c hrest

theorem addMissingColumns_nothing_to_add (existingNames : List String) :
    ∀ (cols table added : List String), (∀ c ∈ cols, existingNames.contains c = true) →
      addMissingColumns existingNames cols table added = (table, added)
  | [], _, _ => fun _ => rfl
  | x :: rest, table, added => fun h => by
    rw [addMissingColumns, if_pos (h x (List.mem_cons_self x rest))]
    exact addMissingColumns_nothing_to_add existingNames rest table added
      fun c hc => h c (List.mem_cons_of_mem x hc)

theorem addMissingColumns_added_from (existingNames : List String) :
    ∀ (cols table added : List String) (c : String),
      c ∈ (addMissingColumns existingNames cols table added).2 → c ∈ added ∨ c ∈ cols
  | [], _, added, c => fun h => Or.inl h
  | x :: rest, table, added, c => fun h => by
    rw [addMissingColumns] at h
    by_cases hx : existingNames.contains x = true
    · rw [if_pos hx] at h
      rcases addMissingColumns_added_from existingNames rest table added c h with h1 | h2
      · exact Or.inl h1
      · exact Or.inr (List.mem_cons_of_mem x h2)
    · rw [if_neg hx] at h
      rcases addMissingColumns_added_from existingNames rest (table ++ [x]) (added ++ [x]) c h
        with h1 | h2
      · rcases List.mem_append.mp h1 with h3 | h4
        · exact Or.inl h3
        · rw [List.mem_singleton.mp h4]
          exact Or.inr (List.mem_cons_self x rest)
      · exact Or.inr (List.mem_cons_of_mem x h2)

/-- After any syncSchema run, the resulting table holds every schema
column plus the reserved columns page_content and synced_at. -/
theorem syncSchema_tableCols_complete (t0 : Option (List String)) (schema : SchemaMapping) :
    (∀ e ∈ schema, e.2.columnName ∈ (syncSchema t0 schema).tableCols) ∧
      "page_content" ∈ (syncSchema t0 schema).tableCols ∧
      "synced_at" ∈ (syncSchema t0 schema).tableCols := by
  match t0 with
  | none =>
    refine ⟨fun e he => ?_, by simp [syncSchema], by simp [syncSchema]⟩
    simp only [syncSchema]
    exact List.mem_append_right _ (List.mem_map_of_mem _ he)
  | some existingNames =>
    have hstep1 : ∀ e ∈ schema, e.2.columnName ∈ (addMissingColumns existingNames
        (schema.map fun e => e.2.columnName) existingNames []).1 := by
      intro e he
      exact addMissingColumns_covers existingNames _ existingNames [] (fun c hc => hc)
        e.2.columnName (List.mem_map_of_mem _ he)
    have hmono : ∀ c ∈ existingNames, c ∈ (addMissingColumns existingNames
        (schema.map fun e => e.2.columnName) existingNames []).1 := fun c hc =>
      addMissingColumns_table_mono existingNames _ existingNames [] c hc
    cases hpc : existingNames.contains "page_content" <;>
      cases hsa : existingNames.contains "synced_at" <;>
        simp only [syncSchema, hpc, hsa, Bool.false_eq_true, if_false, if_true, reduceIte]
    · exact ⟨fun e he => List.mem_append_left _ (List.mem_append_left _ (hstep1 e he)),
        List.mem_append_left _ (List.mem_append_right _ (List.mem_singleton_self _)),
        List.mem_append_right _ (List.mem_singleton_self _)⟩
    · exact ⟨fun e he => List.mem_append_left _ (hstep1 e he),
        List.mem_append_right _ (List.mem_singleton_self _),
        List.mem_append_left _ (hmono _ ((contains_iff_mem _ _).mp hsa))⟩
    · exact ⟨fun e he => List.mem_append_left _ (hstep1 e he),
        List.mem_append_left _ (hmono _ ((contains_iff_mem _ _).mp hpc)),
        List.mem_append_right _ (List.mem_singleton_self _)⟩
    · exact ⟨fun e he => hstep1 e he,
        hmono _ ((contains_iff_mem _ _).mp hpc),
        hmono _ ((contains_iff_mem _ _).mp hsa)⟩

/-- A syncSchema run against an existing table already containing every
schema column and the reserved non-key columns adds nothing. -/
theorem syncSchema_complete_noop (T : List String) (schema : SchemaMapping)
    (hcols : ∀ e ∈ schema, e.2.columnName ∈ T)
    (hpc : "page_content" ∈ T) (hsa : "synced_at" ∈ T) :
    (syncSchema (some T) schema).result = { created := false, columnsAdded := [] } := by
  have hadd : addMissingColumns T (schema.map fun e => e.2.columnName) T [] = (T, []) := by
    apply addMissingColumns_nothing_to_add
    intro c hc
    rcases List.mem_map.mp hc with ⟨e, he, rfl⟩
    exact (contains_iff_mem _ _).mpr (hcols e he)
  simp only [syncSchema, hadd, (contains_iff_mem _ _).mpr hpc,
    (contains_iff_mem _ _).mpr hsa, if_true]

/-- C5: reconciliation is idempotent.  A second syncSchema run against the
table produced by any first run (its introspected columns reflecting that
run) reports created=false and columnsAdded=[]. -/
theorem syncSchema_idempotent (t0 : Option (List String)) (schema : SchemaMapping) :
    (syncSchema (some (syncSchema t0 schema).tableCols) schema).result =
      { created := false, columnsAdded := [] } := by
  obtain ⟨hcols, hpc, hsa⟩ := syncSchema_tableCols_complete t0 schema
  exact syncSchema_complete_noop _ schema hcols hpc hsa

/-- C8 as stated fails on the code: the notion_page_id guard covers only
the reserved-columns loop, so a schema property whose sanitized column
name is notion_page_id (here the Notion property "Notion Page ID") is
added by the ordinary property-column loop even though the pre-existing
table lacks the primary-key column. -/
theorem syncSchema_missing_pk_counterexample :
    "notion_page_id" ∈ (syncSchema (some ["page_content", "synced_at"])
      (fetchNotionSchema [("Notion Page ID", "title")])).result.columnsAdded := by
  have h : (syncSchema (some ["page_content", "synced_at"])
      (fetchNotionSchema [("Notion Page ID", "title")])).result.columnsAdded =
      ["notion_page_id"] := rfl
  rw [h]
  exact List.mem_singleton_self _

/-- C8 amended: when syncSchema runs against an existing table whose
introspected columns lack notion_page_id and no schema-mapping entry
itself sanitizes to notion_page_id, no add-column statement is issued for
notion_page_id: the manual-intervention warning is logged, the table is
not created anew, and the other missing reserved columns (page_content,
synced_at) are still added. -/
theorem syncSchema_missing_pk (existingNames : List String) (schema : SchemaMapping)
    (hpk : existingNames.contains "notion_page_id" = false)
    (hschema : ∀ e ∈ schema, e.2.columnName ≠ "notion_page_id") :
    "notion_page_id" ∉ (syncSchema (some existingNames) schema).result.columnsAdded ∧
      (syncSchema (some existingNames) schema).warnings = [pkWarning] ∧
      (syncSchema (some existingNames) schema).result.created = false ∧
      (existingNames.contains "page_content" = false →
        "page_content" ∈ (syncSchema (some existingNames) schema).result.columnsAdded) ∧
      (existingNames.contains "synced_at" = false →
        "synced_at" ∈ (syncSchema (some existingNames) schema).result.columnsAdded) := by
  have hA2 : "notion_page_id" ∉ (addMissingColumns existingNames
      (schema.map fun e => e.2.columnName) existingNames []).2 := by
    intro h
    rcases addMissingColumns_added_from existingNames _ existingNames [] _ h with h1 | h2
    · exact absurd h1 (List.not_mem_nil _)
    · rcases List.mem_map.mp h2 with ⟨e, he, hcol⟩
      exact hschema e he hcol
  cases hpc : existingNames.contains "page_content" with
  | false =>
    cases hsa : existingNames.contains "synced_at" with
    | false =>
      simp only [syncSchema, hpk, hpc, hsa, Bool.false_eq_true, if_false, if_true, reduceIte]
      refine ⟨?_, trivial, trivial, ?_, ?_⟩
      · intro h
        rcases List.mem_append.mp h with h1 | h2
        · rcases List.mem_append.mp h1 with h3 | h4
          · exact hA2 h3
          · exact absurd (List.mem_singleton.mp h4) (by decide)
        · exact absurd (List.mem_singleton.mp h2) (by decide)
      · intro _
        exact List.mem_append_left _ (List.mem_append_right _ (List.mem_singleton_self _))
      · intro _
        exact List.mem_append_right _ (List.mem_singleton_self _)
    | true =>
      simp only [syncSchema, hpk, hpc, hsa, Bool.false_eq_true, if_false, if_true, reduceIte]
      refine ⟨?_, trivial, trivial, ?_, ?_⟩
      · intro h
        rcases List.mem_append.mp h with h1 | h2
        · exact hA2 h1
        · exact absurd (List.mem_singleton.mp h2) (by decide)
      · intro _
        exact List.mem_append_right _ (List.mem_singleton_self _)
      · intro h
        exact absurd h (by decide)
  | true =>
    cases hsa : existingNames.contains "synced_at" with
    | false =>
      simp only [syncSchema, hpk, hpc, hsa, Bool.false_eq_true, if_false, if_true, reduceIte]
      refine ⟨?_, trivial, trivial, ?_, ?_⟩
      · intro h
        rcases List.mem_append.mp h with h1 | h2
        · exact hA2 h1
        · exact absurd (List.mem_singleton.mp h2) (by decide)
      · intro h
        exact absurd h (by decide)
      · intro _
        exact List.mem_append_right _ (List.mem_singleton_self _)
    | true =>
      simp only [syncSchema, hpk, hpc, hsa, Bool.false_eq_true, if_false, if_true, reduceIte]
      refine ⟨hA2, trivial, trivial, ?_, ?_⟩
      · intro h
        exact absurd h (by decide)
      · intro h
        exact absurd h (by decide)

theorem syncSchema_missing_pk_witness :
    "notion_page_id" ∉
        (syncSchema (some []) (fetchNotionSchema [("Name", "title")])).result.columnsAdded ∧
      (syncSchema (some []) (fetchNotionSchema [("Name", "title")])).warnings = [pkWarning] ∧
      (syncSchema (some []) (fetchNotionSchema [("Name", "title")])).result.created = false ∧
      (([] : List String).contains "page_content" = false → "page_content" ∈
        (syncSchema (some []) (fetchNotionSchema [("Name", "title")])).result.columnsAdded) ∧
      (([] : List String).contains "synced_at" = false → "synced_at" ∈
        (syncSchema (some []) (fetchNotionSchema [("Name", "title")])).result.columnsAdded) :=
  syncSchema_missing_pk [] (fetchNotionSchema [("Name", "title")]) (by decide) (by decide)

/-! ## Property value extraction (page-reader.ts) -/

/-- A plain JavaScript value as returned by extractPropertyValue: null, a
string, a number, a boolean, or an array of strings.  Notion numbers are
modelled as integers; no claim depends on float semantics. -/
inductive Value where
  | nullV
  | str (s : String)
  | num (n : Int)
  | bool (b : Bool)
  | list (ss : List String)
deriving DecidableEq

/-- The formula payload (page-reader.ts lines 113-120): each of the four
sub-results is populated or not. -/
structure Formula where
  string : Option String
  number : Option Int
  boolean : Option Bool
  date : Option String
deriving DecidableEq

/-- The rollup payload (page-reader.ts lines 127-135).  `arrayJson` stands
for the JSON.stringify rendering of the rollup's array sub-result. -/
structure Rollup where
  rtype : String
  number : Option Int
  date : Option String
  string : Option String
  boolean : Option Bool
  arrayJson : String
deriving DecidableEq

/-- One entry of a files property (page-reader.ts lines 149-160): the
resolved URL of the internal file and of the external file, when present. -/
structure FileEntry where
  file : Option String
  external : Option String
deriving DecidableEq

/-- The unique_id payload (page-reader.ts lines 172-179); `prefixField`
models its `prefix` member. -/
structure UniqueId where
  prefixField : Option String
  number : Int
deriving DecidableEq

/-- A typed Notion property object as consumed by extractPropertyValue:
the `type` tag together with the payload stored under the same name.
Absent (`none`) payload components model null/undefined fields. -/
inductive NotionProperty where
  | title (items : Option (List String))
  | rich_text (items : Option (List String))
  | number (n : Option Int)
  | select (name : Option String)
  | multi_select (names : Option (List String))
  | date (start : Option String)
  | checkbox (b : Option Bool)
  | url (u : Option String)
  | email (e : Option String)
  | phone_number (p : Option String)
  | formula (f : Option Formula)
  | relation (ids : Option (List String))
  | rollup (r : Option Rollup)
  | created_time (t : Option String)
  | last_edited_time (t : Option String)
  | created_by (id : Option String)
  | last_edited_by (id : Option String)
  | files (fs : Option (List FileEntry))
  | people (ids : Option (List String))
  | status (name : Option String)
  | unique_id (u : Option UniqueId)
  | unknownType (tag : String)
deriving DecidableEq

/-- extractPropertyValue (page-reader.ts lines 70-185), the switch over
the property type tag.  JavaScript `??` keeps any non-null value
(including false and 0), which Option-valued payloads model exactly; the
files case keeps the `.filter(Boolean)` rejection of empty-string URLs,
and the unique_id case keeps the truthiness test on the prefix. -/
def extractPropertyValue (p : NotionProperty) : Value :=
  match p with
  | .title items => .str (String.join (items.getD []))
  | .rich_text items => .str (String.join (items.getD []))
  | .number n => match n with | some v => .num v | none => .nullV
  | .select name => match name with | some s => .str s | none => .nullV
  | .multi_select names => .list (names.getD [])
  | .date start => match start with | some s => .str s | none => .nullV
  | .checkbox b => .bool (b.getD false)
  | .url u => match u with | some s => .str s | none => .nullV
  | .email e => match e with | some s => .str s | none => .nullV
  | .phone_number pn => match pn with | some s => .str s | none => .nullV
  | .formula f =>
    match f with
    | none => .nullV
    | some ff =>
      match ff.string with
      | some s => .str s
      | none =>
        match ff.number with
        | some n => .num n
        | none =>
          match ff.boolean with
          | some b => .bool b
          | none =>
            match ff.date with
            | some d => .str d
            | none => .nullV
  | .relation ids => .list (ids.getD [])
  | .rollup r =>
    match r with
    | none => .nullV
    | some rr =>
      if rr.rtype = "array" then .str rr.arrayJson
      else
        match rr.number with
        | some n => .num n
        | none =>
          match rr.date with
          | some d => .str d
          | none => .nullV
  | .created_time t => match t with | some s => .str s | none => .nullV
  | .last_edited_time t => match t with | some s => .str s | none => .nullV
  | .created_by id => match id with | some s => .str s | none => .nullV
  | .last_edited_by id => match id with | some s => .str s | none => .nullV
  | .files fs =>
    .list (((fs.getD []).filterMap fun f => f.file.or f.external).filter fun s => !(s == ""))
  | .people ids => .list (ids.getD [])
  | .status name => match name with | some s => .str s | none => .nullV
  | .unique_id u =>
    match u with
    | none => .nullV
    | some uu =>
      match uu.prefixField with
      | some pre =>
        if pre == "" then .str (toString uu.number)
        else .str (pre ++ "-" ++ toString uu.number)
      | none => .str (toString uu.number)
  | .unknownType _ => .nullV

/-- The spec's resolution rule for computed/derived (formula/rollup)
properties, written from the spec text: resolve to whichever of the
string, number, boolean, date sub-results is populated, preferring them
in that order. -/
def specResolveComputed (s : Option String) (n : Option Int) (b : Option Bool)
    (d : Option String) : Value :=
  match s with
  | some v => .str v
  | none =>
    match n with
    | some v => .num v
    | none =>
      match b with
      | some v => .bool v
      | none =>
        match d with
        | some v => .str v
        | none => .nullV

/-- C6 fails on the code for rollups: a non-array rollup carrying only a
populated string sub-result extracts to null, not to the string that the
claimed string-number-boolean-date preference order would produce. -/
theorem extract_rollup_counterexample :
    extractPropertyValue (.rollup (some ⟨"number", none, none, some "s", none, "[]"⟩)) ≠
      specResolveComputed (some "s") none none none := by decide

/-- C6 amended: a formula resolves its string, number, boolean, date
sub-results in that preference order; a rollup serializes its array
sub-result to a string form when its type tag is "array" and otherwise
resolves only number then date — its string and boolean sub-results are
never consulted. -/
theorem extract_computed_values :
    (∀ f : Formula, extractPropertyValue (.formula (some f)) =
        specResolveComputed f.string f.number f.boolean f.date) ∧
      extractPropertyValue (.formula none) = Value.nullV ∧
      (∀ r : Rollup, extractPropertyValue (.rollup (some r)) =
        if r.rtype = "array" then Value.str r.arrayJson
        else specResolveComputed none r.number none r.date) ∧
      extractPropertyValue (.rollup none) = Value.nullV := by
  refine ⟨fun f => ?_, rfl, fun r => ?_, rfl⟩
  · obtain ⟨s, n, b, d⟩ := f
    cases s <;> cases n <;> cases b <;> cases d <;> rfl
  · obtain ⟨rt, n, d, s, b, a⟩ := r
    by_cases h : rt = "array"
    · simp only [extractPropertyValue, h, if_true, reduceIte, if_pos]
    · simp only [extractPropertyValue, specResolveComputed, h, if_false, reduceIte, if_neg,
        not_false_iff]

/-! ## Content flattening (markdown-converter.ts) -/

/-- SKIP_TYPES (markdown-converter.ts lines 13-22): the binary/media block
kinds whose transformers are configured to return the empty string. -/
def SKIP_TYPES : List String :=
  ["image", "video", "file", "pdf", "embed", "bookmark", "link_preview", "audio"]

/-- pageToMarkdown (markdown-converter.ts lines 28-52).  The notion-to-md
pipeline (n2m.pageToMarkdown followed by toMarkdownString, with the
SKIP_TYPES transformers installed) is modelled as one fallible capability
returning the optional `parent` field of the markdown string object; the
try/catch collapses any failure to the empty string, and a missing parent
falls back to the empty string. -/
def pageToMarkdown (convert : String → Except String (Option String))
    (pageId : String) : String :=
  match convert pageId with
  | .ok parent => parent.getD ""
  | .error _ => ""

/-! ## Sync orchestration (part_004 runSync: part_005 types) -/

/-- SyncState (types.ts lines 50-53). -/
structure SyncState where
  lastSyncTime : Option String := none
  cursor : Option String := none
deriving DecidableEq

/-- One page returned by the Notion query: its id, its properties object
when it is a full page object (the code's `"properties" in page` guard),
and its last_edited_time field when present. -/
structure Page where
  id : String
  properties : Option (List (String × NotionProperty))
  last_edited_time : Option String
deriving DecidableEq

/-- The response of notion.databases.query. -/
structure QueryResult where
  results : List Page
  has_more : Bool
  next_cursor : Option String
deriving DecidableEq

/-- The query parameters built at part_004 lines 52-68: the database, the
page size, the always-present sort by last_edited_time ascending, plus at
most one of a start cursor or a last-edited-after filter. -/
structure QueryParams where
  database_id : String
  page_size : Nat
  start_cursor : Option String
  filterAfter : Option String
deriving DecidableEq

/-- SyncRecord (types.ts lines 42-47); synced_at holds the invocation's
current timestamp. -/
structure SyncRecord where
  notion_page_id : String
  page_content : String
  synced_at : String
  properties : List (String × Value)
deriving DecidableEq

/-- SyncResult (types.ts lines 56-60). -/
structure SyncResult where
  processedCount : Nat
  errorCount : Nat
  errors : List String
deriving DecidableEq

/-- RunSyncOutput (types.ts lines 82-86). -/
structure RunSyncOutput where
  result : SyncResult
  nextState : Option SyncState
  hasMore : Bool
deriving DecidableEq

/-- SyncOptions (types.ts lines 76-79); runSync defaults pageSize to 100. -/
structure SyncOptions where
  databaseId : String
  pageSize : Nat := 100
deriving DecidableEq

/-- The external capabilities awaited by one runSync invocation plus the
ambient clock: the retrieved database's property declarations, the query
endpoint, the markdown conversion pipeline, the upsert statement execution
(which may fail per record), and the introspected state of the target
table. -/
structure SyncEnv where
  dbProperties : List (String × String)
  query : QueryParams → QueryResult
  convert : String → Except String (Option String)
  upsert : String → SyncRecord → List String → Except String Unit
  table : Option (List String)
  now : String

/-- Steps 52-68 of runSync: a carried cursor takes precedence; otherwise a
carried lastSyncTime becomes the edited-after filter; with no carried
state the query is unfiltered. -/
def buildQueryParams (databaseId : String) (pageSize : Nat)
    (state : Option SyncState) : QueryParams :=
  match state with
  | some s =>
    match s.cursor with
    | some c =>
      { database_id := databaseId, page_size := pageSize,
        start_cursor := some c, filterAfter := none }
    | none =>
      match s.lastSyncTime with
      | some t =>
        { database_id := databaseId, page_size := pageSize,
          start_cursor := none, filterAfter := some t }
      | none =>
        { database_id := databaseId, page_size := pageSize,
          start_cursor := none, filterAfter := none }
  | none =>
    { database_id := databaseId, page_size := pageSize,
      start_cursor := none, filterAfter := none }

/-- Lines 85-104 of runSync: extract the mapped property values present on
the page, flatten the page content, and build the row to upsert. -/
def buildRecord (env : SyncEnv) (schemaMapping : SchemaMapping) (pid : String)
    (pageProps : List (String × NotionProperty)) : SyncRecord :=
  { notion_page_id := pid,
    page_content := pageToMarkdown env.convert pid,
    synced_at := env.now,
    properties := schemaMapping.filterMap fun e =>
      match pageProps.lookup e.1 with
      | some p => some (e.2.columnName, extractPropertyValue p)
      | none => none }

/-- The error message accumulated at line 111 of runSync. -/
def pageErrorMsg (pid errMessage : String) : String :=
  "Page " ++ pid ++ ": " ++ errMessage

/-- The body of the per-page loop (lines 82-115): pages that are not full
page objects are skipped; a failing upsert increments the error counter
and appends one message; a successful one increments processedCount. -/
def processPage (env : SyncEnv) (tableName : String) (schemaMapping : SchemaMapping)
    (columnNames : List String) (acc : SyncResult) (page : Page) : SyncResult :=
  match page.properties with
  | none => acc
  | some pageProps =>
    match env.upsert tableName (buildRecord env schemaMapping page.id pageProps)
        columnNames with
    | .ok _ => { acc with processedCount := acc.processedCount + 1 }
    | .error e =>
      { acc with
        errorCount := acc.errorCount + 1
        errors := acc.errors ++ [pageErrorMsg page.id e] }

/-- The whole per-page loop over one query result. -/
def processPages (env : SyncEnv) (tableName : String) (schemaMapping : SchemaMapping)
    (columnNames : List String) (pages : List Page) : SyncResult :=
  pages.foldl (processPage env tableName schemaMapping columnNames)
    { processedCount := 0, errorCount := 0, errors := [] }

/-- Lines 127-136 of runSync: at batch end with records returned, the next
watermark is the last page's last_edited_time; a last page lacking that
field leaves the next state undefined. -/
def cycleEndState (q : QueryResult) : Option SyncState :=
  match q.results.getLast? with
  | none => none
  | some lastPage =>
    match lastPage.last_edited_time with
    | some t => some { lastSyncTime := some t, cursor := none }
    | none => none

/-- Lines 117-136 of runSync: with more pages and a next cursor, the new
state spreads the old one — so an incoming lastSyncTime is preserved —
and overwrites the cursor; otherwise the batch-end watermark logic
applies. -/
def nextStateOf (state : Option SyncState) (q : QueryResult) : Option SyncState :=
  if q.has_more && q.next_cursor.isSome then
    some { lastSyncTime := match state with | some s => s.lastSyncTime | none => none,
           cursor := q.next_cursor }
  else cycleEndState q

/-- The output of one runSync invocation together with its modelled
observable effects: whether the first-run schema sync executed (and its
outcome) and the query parameters sent to the remote. -/
structure RunSyncTrace where
  output : RunSyncOutput
  ranSchemaSync : Bool
  schemaStep : Option SyncSchemaOut
  queryParams : QueryParams

/-- runSync (part_004 lines 27-143): fetch the schema, reconcile it only
when no state is carried, query with cursor/filter/unfiltered parameters,
process every returned page with per-record error isolation, and compute
the next resumable state. -/
def runSync (env : SyncEnv) (options : SyncOptions) (state : Option SyncState) :
    RunSyncTrace :=
  let tableName := getTableName options.databaseId
  let schemaMapping := fetchNotionSchema env.dbProperties
  let schemaStep := if state.isNone then some (syncSchema env.table schemaMapping) else none
  let queryParams := buildQueryParams options.databaseId options.pageSize state
  let q := env.query queryParams
  let columnNames := schemaMapping.map fun e => e.2.columnName
  let result := processPages env tableName schemaMapping columnNames q.results
  { output := { result := result, nextState := nextStateOf state q, hasMore := q.has_more },
    ranSchemaSync := state.isNone,
    schemaStep := schemaStep,
    queryParams := queryParams }

/-- Classification of one page in the processing loop: skipped (`none`,
not a full page object), upserted successfully (`some true`), or failed
(`some false`). -/
def pageOutcome (env : SyncEnv) (tableName : String) (schemaMapping : SchemaMapping)
    (columnNames : List String) (page : Page) : Option Bool :=
  match page.properties with
  | none => none
  | some pageProps =>
    match env.upsert tableName (buildRecord env schemaMapping page.id pageProps)
        columnNames with
    | .ok _ => some true
    | .error _ => some false

theorem processPages_counts (env : SyncEnv) (tableName : String) (sm : SchemaMapping)
    (cn : List String) (pages : List Page) :
    ∀ acc : SyncResult,
      (pages.foldl (processPage env tableName sm cn) acc).processedCount =
          acc.processedCount +
            pages.countP (fun p => pageOutcome env tableName sm cn p == some true) ∧
        (pages.foldl (processPage env tableName sm cn) acc).errorCount =
          acc.errorCount +
            pages.countP (fun p => pageOutcome env tableName sm cn p == some false) ∧
        (pages.foldl (processPage env tableName sm cn) acc).errors.length =
          acc.errors.length +
            pages.countP (fun p => pageOutcome env tableName sm cn p == some false) := by
  induction pages with
  | nil => intro acc; simp
  | cons page rest ih =>
    intro acc
    obtain ⟨h1, h2, h3⟩ := ih (processPage env tableName sm cn acc page)
    simp only [List.foldl_cons]
    cases hp : page.properties with
    | none =>
      have hstep : processPage env tableName sm cn acc page = acc := by
        simp [processPage, hp]
      have ho : pageOutcome env tableName sm cn page = none := by
        simp [pageOutcome, hp]
      rw [hstep] at h1 h2 h3
      rw [hstep]
      refine ⟨?_, ?_, ?_⟩
      · rw [h1, List.countP_cons]
        simp [ho]
      · rw [h2, List.countP_cons]
        simp [ho]
      · rw [h3, List.countP_cons]
        simp [ho]
    | some pageProps =>
      cases hu : env.upsert tableName (buildRecord env sm page.id pageProps) cn with
      | ok u =>
        have hstep : processPage env tableName sm cn acc page =
            { acc with processedCount := acc.processedCount + 1 } := by
          simp [processPage, hp, hu]
        have ho : pageOutcome env tableName sm cn page = some true := by
          simp [pageOutcome, hp, hu]
        rw [hstep] at h1 h2 h3
        rw [hstep]
        refine ⟨?_, ?_, ?_⟩
        · rw [h1, List.countP_cons]
          simp only [ho]
          simp only [beq_self_eq_true, if_true, reduceIte]
          omega
        · rw [h2, List.countP_cons]
          simp [ho]
        · rw [h3, List.countP_cons]
          simp [ho]
      | error e =>
        have hstep : processPage env tableName sm cn acc page =
            { acc with
              errorCount := acc.errorCount + 1
              errors := acc.errors ++ [pageErrorMsg page.id e] } := by
          simp [processPage, hp, hu]
        have ho : pageOutcome env tableName sm cn page = some false := by
          simp [pageOutcome, hp, hu]
        rw [hstep] at h1 h2 h3
        rw [hstep]
        refine ⟨?_, ?_, ?_⟩
        · rw [h1, List.countP_cons]
          simp [ho]
        · rw [h2, List.countP_cons]
          simp only [ho]
          simp only [beq_self_eq_true, if_true, reduceIte]
          omega
        · rw [h3, List.countP_cons]
          simp only [ho, List.length_append, List.length_singleton]
          simp only [beq_self_eq_true, if_true, reduceIte]
          omega

/-- A full page object with one title property, used by the concrete
batch scenarios. -/
def mkBatchPage (pid : String) : Page :=
  { id := pid
    properties := some [("Name", .title (some ["x"]))]
    last_edited_time := some "2024-03-03T00:00:00Z" }

/-- A five-record batch environment whose upsert fails exactly on the
third record (p3). -/
def envBatch : SyncEnv :=
  { dbProperties := [("Name", "title")]
    query := fun _ =>
      { results := [mkBatchPage "p1", mkBatchPage "p2", mkBatchPage "p3",
          mkBatchPage "p4", mkBatchPage "p5"]
        has_more := false
        next_cursor := none }
    convert := fun _ => Except.ok (some "body")
    upsert := fun _ r _ => if r.notion_page_id = "p3" then Except.error "boom" else Except.ok ()
    table := none
    now := "2024-01-01T00:00:00Z" }

/-- C4: per-record failures are isolated.  Over any invocation the
processed counter counts exactly the successfully upserted full pages,
the error counter counts exactly the failed ones (one accumulated message
each), and in the concrete five-record batch whose third record fails the
result is processedCount=4, errorCount=1, with the single message for p3. -/
theorem runSync_error_isolation :
    (∀ (env : SyncEnv) (options : SyncOptions) (state : Option SyncState),
      (runSync env options state).output.result.processedCount =
          ((env.query (buildQueryParams options.databaseId options.pageSize state)).results.countP
            fun p => pageOutcome env (getTableName options.databaseId)
              (fetchNotionSchema env.dbProperties)
              ((fetchNotionSchema env.dbProperties).map fun e => e.2.columnName) p ==
                some true) ∧
        (runSync env options state).output.result.errorCount =
          ((env.query (buildQueryParams options.databaseId options.pageSize state)).results.countP
            fun p => pageOutcome env (getTableName options.databaseId)
              (fetchNotionSchema env.dbProperties)
              ((fetchNotionSchema env.dbProperties).map fun e => e.2.columnName) p ==
                some false) ∧
        (runSync env options state).output.result.errors.length =
          (runSync env options state).output.result.errorCount) ∧
      (runSync envBatch { databaseId := "db" } none).output.result.processedCount = 4 ∧
      (runSync envBatch { databaseId := "db" } none).output.result.errorCount = 1 ∧
      (runSync envBatch { databaseId := "db" } none).output.result.errors =
        ["Page p3: boom"] := by
  refine ⟨fun env options state => ?_, by decide, by decide, by decide⟩
  obtain ⟨h1, h2, h3⟩ := processPages_counts env (getTableName options.databaseId)
    (fetchNotionSchema env.dbProperties)
    ((fetchNotionSchema env.dbProperties).map fun e => e.2.columnName)
    (env.query (buildQueryParams options.databaseId options.pageSize state)).results
    { processedCount := 0, errorCount := 0, errors := [] }
  have ha : (runSync env options state).output.result.errors.length =
      ((env.query (buildQueryParams options.databaseId options.pageSize state)).results.countP
        fun p => pageOutcome env (getTableName options.databaseId)
          (fetchNotionSchema env.dbProperties)
          ((fetchNotionSchema env.dbProperties).map fun e => e.2.columnName) p ==
            some false) := h3.trans (Nat.zero_add _)
  have hb : (runSync env options state).output.result.errorCount =
      ((env.query (buildQueryParams options.databaseId options.pageSize state)).results.countP
        fun p => pageOutcome env (getTableName options.databaseId)
          (fetchNotionSchema env.dbProperties)
          ((fetchNotionSchema env.dbProperties).map fun e => e.2.columnName) p ==
            some false) := h2.trans (Nat.zero_add _)
  exact ⟨h1.trans (Nat.zero_add _), hb, ha.trans hb.symm⟩

/-- A one-record environment whose markdown conversion always fails while
the upsert always succeeds. -/
def envFailingConvert : SyncEnv :=
  { dbProperties := [("Name", "title")]
    query := fun _ =>
      { results := [mkBatchPage "p1"], has_more := false, next_cursor := none }
    convert := fun _ => Except.error "conv failed"
    upsert := fun _ _ _ => Except.ok ()
    table := none
    now := "2024-01-01T00:00:00Z" }

/-- C9: content flattening never raises: any conversion failure degrades
pageToMarkdown to the empty string, and in any invocation whose upserts
all succeed no record is counted as a sync error — so a flattening
failure alone never fails a record's sync. -/
theorem pageToMarkdown_never_fails :
    (∀ (convert : String → Except String (Option String)) (pageId errVal : String),
      convert pageId = Except.error errVal → pageToMarkdown convert pageId = "") ∧
      (∀ (env : SyncEnv) (options : SyncOptions) (state : Option SyncState),
        (∀ tn r cn, env.upsert tn r cn = Except.ok ()) →
        (runSync env options state).output.result.errorCount = 0 ∧
          (runSync env options state).output.result.errors = []) := by
  constructor
  · intro convert pageId errVal hfail
    unfold pageToMarkdown
    rw [hfail]
  · intro env options state hok
    obtain ⟨_, h2, h3⟩ := processPages_counts env (getTableName options.databaseId)
      (fetchNotionSchema env.dbProperties)
      ((fetchNotionSchema env.dbProperties).map fun e => e.2.columnName)
      (env.query (buildQueryParams options.databaseId options.pageSize state)).results
      { processedCount := 0, errorCount := 0, errors := [] }
    have hzero : ((env.query (buildQueryParams options.databaseId
        options.pageSize state)).results.countP
        fun p => pageOutcome env (getTableName options.databaseId)
          (fetchNotionSchema env.dbProperties)
          ((fetchNotionSchema env.dbProperties).map fun e => e.2.columnName) p ==
            some false) = 0 := by
      rw [List.countP_eq_zero]
      intro p _
      cases hp : p.properties with
      | none => simp [pageOutcome, hp]
      | some pageProps => simp [pageOutcome, hp, hok]
    constructor
    · exact (h2.trans (Nat.zero_add _)).trans hzero
    · have hlen : (runSync env options state).output.result.errors.length = 0 :=
        (h3.trans (Nat.zero_add _)).trans hzero
      exact List.eq_nil_of_length_eq_zero hlen

theorem pageToMarkdown_never_fails_witness :
    pageToMarkdown (fun _ => Except.error "conv failed") "p1" = "" ∧
      (runSync envFailingConvert { databaseId := "db" } none).output.result.errorCount = 0 ∧
      (runSync envFailingConvert { databaseId := "db" } none).output.result.errors = [] :=
  ⟨pageToMarkdown_never_fails.1 (fun _ => Except.error "conv failed") "p1" "conv failed" rfl,
    pageToMarkdown_never_fails.2 envFailingConvert { databaseId := "db" } none
      fun _ _ _ => rfl⟩

/-- A fixed environment whose query returns no records but reports more
pages with next cursor c1. -/
def envC1 : SyncEnv :=
  { dbProperties := []
    query := fun _ => { results := [], has_more := true, next_cursor := some "c1" }
    convert := fun _ => Except.ok (some "")
    upsert := fun _ _ _ => Except.ok ()
    table := none
    now := "2024-01-01T00:00:00Z" }

/-- C1 fails on the code: starting from a watermark-carrying state, a
hasMore response with a next cursor yields a next state that still
carries the incoming watermark alongside the new cursor — not the
cursor-only state the claim demands. -/
theorem runSync_cursor_keeps_watermark_counterexample :
    (runSync envC1 { databaseId := "db" }
        (some { lastSyncTime := some "2024-01-01", cursor := none })).output.nextState =
      some { lastSyncTime := some "2024-01-01", cursor := some "c1" } ∧
      (runSync envC1 { databaseId := "db" }
        (some { lastSyncTime := some "2024-01-01", cursor := none })).output.nextState ≠
      some { lastSyncTime := none, cursor := some "c1" } := by
  exact ⟨rfl, by decide⟩

/-- C1 amended: when the remote reports hasMore with a next cursor, the
returned state carries exactly that cursor, while its lastSyncTime is
inherited unchanged from the carried state (the spread of the old state):
a watermark present at the start of the invocation persists alongside the
cursor, and only an absent state or a watermark-free state yields a
cursor-only next state. -/
theorem runSync_cursor_continuation (env : SyncEnv) (options : SyncOptions)
    (state : Option SyncState) (c : String)
    (hmore : (env.query (buildQueryParams options.databaseId options.pageSize
      state)).has_more = true)
    (hcur : (env.query (buildQueryParams options.databaseId options.pageSize
      state)).next_cursor = some c) :
    (runSync env options state).output.nextState =
      some { lastSyncTime := Option.bind state fun s => s.lastSyncTime,
             cursor := some c } := by
  show nextStateOf state
    (env.query (buildQueryParams options.databaseId options.pageSize state)) = _
  unfold nextStateOf
  rw [hmore, hcur]
  cases state with
  | none => simp
  | some s => simp

theorem runSync_cursor_continuation_witness :
    (runSync envC1 { databaseId := "db" }
        (some { lastSyncTime := some "2024-01-01", cursor := some "c0" })).output.nextState =
      some { lastSyncTime := some "2024-01-01", cursor := some "c1" } :=
  runSync_cursor_continuation envC1 { databaseId := "db" }
    (some { lastSyncTime := some "2024-01-01", cursor := some "c0" }) "c1" rfl rfl

/-- A one-record environment whose query reports no further pages. -/
def envC2 : SyncEnv :=
  { dbProperties := []
    query := fun _ =>
      { results := [⟨"p1", some [], some "2024-02-02T00:00:00Z"⟩]
        has_more := false
        next_cursor := none }
    convert := fun _ => Except.ok (some "")
    upsert := fun _ _ _ => Except.ok ()
    table := none
    now := "2024-01-01T00:00:00Z" }

/-- C2: when the query returns at least one record and reports
hasMore=false, the next state's watermark equals the last returned
record's last_edited_time and carries no cursor. -/
theorem runSync_watermark (env : SyncEnv) (options : SyncOptions)
    (state : Option SyncState) (lastPage : Page) (t : String)
    (hmore : (env.query (buildQueryParams options.databaseId options.pageSize
      state)).has_more = false)
    (hlast : (env.query (buildQueryParams options.databaseId options.pageSize
      state)).results.getLast? = some lastPage)
    (ht : lastPage.last_edited_time = some t) :
    (runSync env options state).output.nextState =
      some { lastSyncTime := some t, cursor := none } := by
  show nextStateOf state
    (env.query (buildQueryParams options.databaseId options.pageSize state)) = _
  unfold nextStateOf
  rw [hmore]
  simp only [Bool.false_and, if_false, Bool.false_eq_true, reduceIte]
  simp [cycleEndState, hlast, ht]

theorem runSync_watermark_witness :
    (runSync envC2 { databaseId := "db" } none).output.nextState =
      some { lastSyncTime := some "2024-02-02T00:00:00Z", cursor := none } :=
  runSync_watermark envC2 { databaseId := "db" } none
    { id := "p1", properties := some [], last_edited_time := some "2024-02-02T00:00:00Z" }
    "2024-02-02T00:00:00Z" rfl rfl rfl

/-- A fixed environment whose query returns no records while reporting
more pages with a next cursor. -/
def envC10 : SyncEnv :=
  { dbProperties := []
    query := fun _ => { results := [], has_more := true, next_cursor := some "c9" }
    convert := fun _ => Except.ok (some "")
    upsert := fun _ _ _ => Except.ok ()
    table := none
    now := "2024-01-01T00:00:00Z" }

/-- A fixed environment whose query returns no records and no further
pages. -/
def envC10b : SyncEnv :=
  { dbProperties := []
    query := fun _ => { results := [], has_more := false, next_cursor := none }
    convert := fun _ => Except.ok (some "")
    upsert := fun _ _ _ => Except.ok ()
    table := none
    now := "2024-01-01T00:00:00Z" }

/-- C10 fails as stated: zero returned records do not force an undefined
next state — when the response still reports hasMore with a next cursor,
the cursor branch produces a defined next state. -/
theorem runSync_zero_records_counterexample :
    (envC10.query (buildQueryParams "db" 100
        (some { lastSyncTime := some "w", cursor := none }))).results = [] ∧
      (runSync envC10 { databaseId := "db" }
        (some { lastSyncTime := some "w", cursor := none })).output.nextState ≠ none := by
  exact ⟨rfl, by decide⟩

/-- C10 amended: when the query returns zero records and does not report
hasMore with a next cursor, the returned next state is undefined; schema
reconciliation is triggered exactly when the carried state is absent, and
a stateless invocation queries with neither cursor nor watermark filter —
so the invocation following an undefined next state is treated as a first
run, discarding any previously established watermark. -/
theorem runSync_zero_records (env : SyncEnv) (options : SyncOptions)
    (state : Option SyncState)
    (hzero : (env.query (buildQueryParams options.databaseId options.pageSize
      state)).results = [])
    (hnc : ((env.query (buildQueryParams options.databaseId options.pageSize
        state)).has_more &&
      ((env.query (buildQueryParams options.databaseId options.pageSize
        state)).next_cursor).isSome) = false) :
    (runSync env options state).output.nextState = none ∧
      (∀ (env2 : SyncEnv) (options2 : SyncOptions),
        (runSync env2 options2 none).ranSchemaSync = true ∧
          (runSync env2 options2 none).queryParams.start_cursor = none ∧
          (runSync env2 options2 none).queryParams.filterAfter = none) ∧
      ∀ (env3 : SyncEnv) (options3 : SyncOptions) (st3 : SyncState),
        (runSync env3 options3 (some st3)).ranSchemaSync = false := by
  refine ⟨?_, fun env2 options2 => ⟨rfl, rfl, rfl⟩, fun env3 options3 st3 => rfl⟩
  show nextStateOf state
    (env.query (buildQueryParams options.databaseId options.pageSize state)) = none
  unfold nextStateOf
  rw [hnc]
  simp only [Bool.false_eq_true, if_false, reduceIte]
  simp [cycleEndState, hzero]

theorem runSync_zero_records_witness :
    (runSync envC10b { databaseId := "db" }
        (some { lastSyncTime := some "w", cursor := none })).output.nextState = none ∧
      (∀ (env2 : SyncEnv) (options2 : SyncOptions),
        (runSync env2 options2 none).ranSchemaSync = true ∧
          (runSync env2 options2 none).queryParams.start_cursor = none ∧
          (runSync env2 options2 none).queryParams.filterAfter = none) ∧
      ∀ (env3 : SyncEnv) (options3 : SyncOptions) (st3 : SyncState),
        (runSync env3 options3 (some st3)).ranSchemaSync = false :=
  runSync_zero_records envC10b { databaseId := "db" }
    (some { lastSyncTime := some "w", cursor := none }) rfl rfl

end AjaxWorker
